import Mathlib

/-!
Verification of the smarthome voice pipeline (github.com/JoakimCarlsson/smarthome).

This file gives a shallow embedding, in Lean 4, of the pure logic of the
repository and proves properties of it:

- the utterance segmenter `captureLoop` and its pre-roll `ringBuffer`
  (internal/audio capture file);
- the WAV container writer `EncodeWAV` (internal/audio wav file);
- the playback buffering `Playback.Play` / `Playback.Flush` / `Playback.Close`
  (internal/audio/playback.go);
- the speech synthesis session `readLoop` / `Close` / `Flush` / `SendText`
  (internal/tts session file);
- the web search tool `WebSearchTool.Run` (internal/tools/websearch.go);
- the per-utterance conversational turn of `main` (cmd/smarthome/main.go).

Machine integers are modelled as `Nat` with explicit truncation (`% 256`,
`% 2 ^ 32`, ...) at the points where the Go code casts.  Device, network and
decoding effects are modelled by explicit inputs (event lists and write-result
oracles).  Frames are byte lists; a frame as seen by the capture loop is the
pair of its VAD classification and its bytes.
-/

set_option maxHeartbeats 1000000
set_option maxRecDepth 2000

namespace SmartHome

/-- Byte strings (Go `[]byte`) are lists of naturals; each entry is one byte. -/
abbrev Bytes := List Nat

/-- Write `v` at position `i` of a list; out-of-range writes leave the list
unchanged.  The capture loop only performs in-range writes once the ring size is
positive, which every theorem below assumes. -/
def setNth {α : Type} : List α → Nat → α → List α
  | [], _, _ => []
  | _ :: t, 0, v => v :: t
  | h :: t, n + 1, v => h :: setNth t n v

/-! ## Pre-roll ring buffer (type `ringBuffer` of the capture file)

The Go struct holds a slice of frames (`nil` marking a never-written slot),
its size, the next write position, and a wrap flag. -/

structure RingBuffer where
  buf : List (Option Bytes)
  size : Nat
  pos : Nat
  full : Bool
deriving Repr, DecidableEq

/-- Go `newRingBuffer(size)`: a slice of `size` nil entries, position 0, not full. -/
def newRingBuffer (size : Nat) : RingBuffer :=
  { buf := List.replicate size none, size := size, pos := 0, full := false }

/-- Go `(*ringBuffer).Push`: copy the frame into slot `pos`, advance `pos`
modulo the size, and mark the buffer full when `pos` wraps to 0. -/
def RingBuffer.push (r : RingBuffer) (frame : Bytes) : RingBuffer :=
  let buf := setNth r.buf r.pos (some frame)
  let pos := (r.pos + 1) % r.size
  { r with buf := buf, pos := pos, full := r.full || (pos == 0) }

/-- The slot indices visited by Go `(*ringBuffer).Drain`: `pos .. size-1` when
the buffer has wrapped, then `0 .. pos-1`. -/
def drainSlots (r : RingBuffer) : List Nat :=
  (if r.full then List.range' r.pos (r.size - r.pos) else []) ++ List.range r.pos

/-- One step of the Drain accumulation: append the bytes of a non-nil slot. -/
def collectSlot (buf : List (Option Bytes)) (out : Bytes) (i : Nat) : Bytes :=
  match buf.getD i none with
  | some f => out ++ f
  | none => out

/-- Go `(*ringBuffer).Drain`: concatenate the retained frames oldest first and
reset `pos` and `full` (the slice entries themselves are not cleared). -/
def RingBuffer.drain (r : RingBuffer) : Bytes × RingBuffer :=
  ((drainSlots r).foldl (collectSlot r.buf) [],
   { r with pos := 0, full := false })

/-! ## Capture loop (`(*Capture).captureLoop`)

The loop state is the ring, the utterance under construction, the silence
counter and the speaking flag.  One input frame is the VAD classification
together with the frame bytes; reads or classifications that fail are skipped
by the Go loop and therefore never reach this state machine.  Cancellation
ends the run, which is modelled by the input list being finite. -/

structure Frame where
  active : Bool
  data : Bytes
deriving Repr, DecidableEq

structure CaptureState where
  ring : RingBuffer
  utterance : Bytes
  silenceCount : Nat
  speaking : Bool
deriving Repr, DecidableEq

/-- The state at the top of `captureLoop`: fresh ring of `preBufferFrames`
slots, nil utterance, zero silence, not speaking. -/
def initCaptureState (preBufferFrames : Nat) : CaptureState :=
  { ring := newRingBuffer preBufferFrames, utterance := [], silenceCount := 0,
    speaking := false }

/-- One iteration of the body of `captureLoop` on a classified frame.  Returns
the next state and the utterance sent on the channel, if any.  Mirrors the Go
code: on an active frame while not speaking, drain the ring into the
utterance and reset the counter; while speaking every frame is appended; every
inactive frame is pushed into the ring, and while speaking it also increments
the silence counter, emitting once the counter reaches the threshold. -/
def captureStep (silenceFrames : Nat) (s : CaptureState) (f : Frame) :
    CaptureState × Option Bytes :=
  if f.active then
    let s' := if s.speaking then s else
      { ring := (s.ring.drain).2, utterance := (s.ring.drain).1,
        silenceCount := 0, speaking := true }
    ({ s' with utterance := s'.utterance ++ f.data }, none)
  else
    let ring := s.ring.push f.data
    if s.speaking then
      let utt := s.utterance ++ f.data
      let cnt := s.silenceCount + 1
      if silenceFrames ≤ cnt then
        ({ ring := ring, utterance := [], silenceCount := 0, speaking := false },
         some utt)
      else
        ({ s with ring := ring, utterance := utt, silenceCount := cnt }, none)
    else ({ s with ring := ring }, none)

/-- Run `captureLoop` over a finite list of classified frames, collecting the
emitted utterances in order. -/
def captureRun (silenceFrames : Nat) (s : CaptureState) : List Frame → List Bytes
  | [] => []
  | f :: fs =>
    match captureStep silenceFrames s f with
    | (s', some u) => u :: captureRun silenceFrames s' fs
    | (s', none) => captureRun silenceFrames s' fs

/-! ## Reference segmenter, written from the specification's words

This second state machine follows the specification: instead of the circular
buffer it keeps the plain list of frames pushed into the ring since the last
drain, and at speech onset it takes the last `min(preBufferFrames, pushed)`
of them, in arrival order, as the utterance prefix.  The refinement theorem
for claim C2 compares it with `captureRun`. -/

/-- Last `n` elements of a list, in order. -/
def takeLast {α : Type} (n : Nat) (l : List α) : List α := l.drop (l.length - n)

structure SegSpecState where
  pushed : List Bytes
  utterance : Bytes
  silenceCount : Nat
  speaking : Bool
deriving Repr, DecidableEq

def initSegSpecState : SegSpecState :=
  { pushed := [], utterance := [], silenceCount := 0, speaking := false }

def segSpecStep (silenceFrames preBufferFrames : Nat) (s : SegSpecState)
    (f : Frame) : SegSpecState × Option Bytes :=
  if f.active then
    let s' := if s.speaking then s else
      { pushed := [], utterance := (takeLast preBufferFrames s.pushed).flatten,
        silenceCount := 0, speaking := true }
    ({ s' with utterance := s'.utterance ++ f.data }, none)
  else
    let pushed := s.pushed ++ [f.data]
    if s.speaking then
      let utt := s.utterance ++ f.data
      let cnt := s.silenceCount + 1
      if silenceFrames ≤ cnt then
        ({ pushed := pushed, utterance := [], silenceCount := 0,
           speaking := false }, some utt)
      else
        ({ s with pushed := pushed, utterance := utt, silenceCount := cnt }, none)
    else ({ s with pushed := pushed }, none)

def segSpecRun (silenceFrames preBufferFrames : Nat) (s : SegSpecState) :
    List Frame → List Bytes
  | [] => []
  | f :: fs =>
    match segSpecStep silenceFrames preBufferFrames s f with
    | (s', some u) => u :: segSpecRun silenceFrames preBufferFrames s' fs
    | (s', none) => segSpecRun silenceFrames preBufferFrames s' fs

/-- Emission counter following the specification's §4.1 algorithm text on the
classification stream alone: mark speaking on an active frame, reset the
counter only at that transition, count every inactive frame while speaking,
emit at the threshold and return to not-speaking. -/
def segmenterEmits (silenceFrames : Nat) : Bool → Nat → List Bool → Nat
  | _, _, [] => 0
  | speaking, cnt, a :: rest =>
    if a then
      segmenterEmits silenceFrames true (if speaking then cnt else 0) rest
    else if speaking then
      if silenceFrames ≤ cnt + 1 then
        1 + segmenterEmits silenceFrames false 0 rest
      else
        segmenterEmits silenceFrames true (cnt + 1) rest
    else
      segmenterEmits silenceFrames false cnt rest

/-! ## Playback sink (internal/audio/playback.go)

The sink keeps a little-endian 16-bit pending byte buffer and a device stream
sized to one fixed frame (`PlaybackSampleRate / 10` samples).  Device write
results are supplied by an oracle list: `ok`, an underflow error (whose message
contains "Output underflowed" and is suppressed by the Go code), or any other
write error (`failMsg`).  A write on a closed stream fails with a non-underflow
error.  Every call of `stream.Write()` is logged, together with the frame
buffer contents it wrote and the result the device returned. -/

def PlaybackSampleRate : Nat := 24000

inductive WriteRes
  | ok
  | underflow
  | failMsg
deriving Repr, DecidableEq

structure PlayCall where
  frame : List Int
  res : WriteRes
deriving Repr, DecidableEq

/-- Result of one device write: the outcome, and the rest of the oracle.  An
exhausted oracle answers `ok`; a closed stream always answers with a
non-underflow error and consumes nothing. -/
def streamWrite (closed : Bool) (o : List WriteRes) : WriteRes × List WriteRes :=
  if closed then (WriteRes.failMsg, o)
  else
    match o with
    | [] => (WriteRes.ok, [])
    | r :: rest => (r, rest)

/-- Go `int16(binary.LittleEndian.Uint16(...))`: two bytes, little endian,
reinterpreted as a signed 16-bit sample. -/
def toInt16 (u : Nat) : Int :=
  if u % 65536 < 32768 then (u % 65536 : Int) else (u % 65536 : Int) - 65536

/-- Decode consecutive little-endian byte pairs into signed samples, as the
loops in `Play` and `Flush` do; a trailing odd byte is ignored. -/
def decodePCM : List Nat → List Int
  | b0 :: b1 :: rest => toInt16 (b0 % 256 + 256 * (b1 % 256)) :: decodePCM rest
  | _ => []

structure Playback where
  frameSize : Nat
  pending : List Nat
  streamClosed : Bool
deriving Repr, DecidableEq

/-- Go `NewPlayback()` (assuming the device opens): frame size
`PlaybackSampleRate / 10 = 2400` samples, empty pending buffer, open stream. -/
def newPlayback : Playback :=
  { frameSize := PlaybackSampleRate / 10, pending := [], streamClosed := false }

structure PlayResult where
  pending : List Nat
  oracle : List WriteRes
  calls : List PlayCall
  err : Option String
deriving Repr, DecidableEq

/-- The `for len(p.pending) >= frameSizeBytes` loop of `Play`: decode one frame
into the frame buffer, remove the consumed bytes, write; a non-underflow write
error aborts the loop and is returned, an underflow is suppressed.  The Go
loop does not terminate when the frame size is zero; the guard `0 < fs` keeps
the model total and every theorem below uses the positive size of
`newPlayback`. -/
def playLoop (fs : Nat) (closed : Bool) (pending : List Nat)
    (o : List WriteRes) : PlayResult :=
  if _h : 0 < fs ∧ fs * 2 ≤ pending.length then
    let frame := decodePCM (pending.take (fs * 2))
    let rest := pending.drop (fs * 2)
    let w := streamWrite closed o
    match w.1 with
    | WriteRes.failMsg =>
      { pending := rest, oracle := w.2, calls := [⟨frame, WriteRes.failMsg⟩],
        err := some "writing playback stream" }
    | res =>
      let r := playLoop fs closed rest w.2
      { r with calls := ⟨frame, res⟩ :: r.calls }
  else
    { pending := pending, oracle := o, calls := [], err := none }
termination_by pending.length
decreasing_by
  simp only [List.length_drop]
  omega

/-- Go `(*Playback).Play`: append the data to the pending buffer, then run the
frame-draining loop. -/
def Playback.play (p : Playback) (data : List Nat) (o : List WriteRes) :
    Playback × PlayResult :=
  let r := playLoop p.frameSize p.streamClosed (p.pending ++ data) o
  ({ p with pending := r.pending }, r)

/-- Go `(*Playback).Flush`: with fewer than two pending bytes just clear the
buffer; otherwise decode `len(pending)/2` samples into the frame buffer,
zero-pad the rest of the frame, clear the pending buffer and write once.  When
the sample count exceeds the frame size the Go loop indexes the frame buffer
out of range and panics, which the model reports as `none`. -/
def Playback.flush (p : Playback) (o : List WriteRes) :
    Option (Playback × PlayResult) :=
  if p.pending.length < 2 then
    some ({ p with pending := [] },
      { pending := [], oracle := o, calls := [], err := none })
  else
    let samples := p.pending.length / 2
    if p.frameSize < samples then none
    else
      let frame := decodePCM (p.pending.take (samples * 2)) ++
        List.replicate (p.frameSize - samples) 0
      let w := streamWrite p.streamClosed o
      let e : Option String :=
        match w.1 with
        | WriteRes.failMsg => some "writing playback stream"
        | _ => none
      some ({ p with pending := [] },
        { pending := [], oracle := w.2, calls := [⟨frame, w.1⟩], err := e })

/-- Go `(*Playback).Close`: stop and close the stream, ignoring their errors,
and return nil.  The stream field stays set, so a repeated call again returns
nil; no write is performed. -/
def Playback.close (p : Playback) : Playback × Option String :=
  ({ p with streamClosed := true }, none)

/-- The calls of a write log that actually put audio on the device: those the
device answered with `ok` or with a suppressed underflow. -/
def emittedCalls (calls : List PlayCall) : List PlayCall :=
  calls.filter (fun c => c.res ≠ WriteRes.failMsg)

/-- A write oracle on which no device write fails with a non-underflow error. -/
def NoFail (o : List WriteRes) : Prop := ∀ r ∈ o, r ≠ WriteRes.failMsg

/-- A sequence of sink calls, for the buffering invariant of claim C9. -/
inductive SinkOp
  | playOp (data : List Nat)
  | flushOp
deriving Repr, DecidableEq

structure SinkRunResult where
  state : Playback
  oracle : List WriteRes
  panicked : Bool
deriving Repr, DecidableEq

/-- Run a sequence of `Play`/`Flush` calls; a flush that would index the frame
buffer out of range stops the run with `panicked = true`. -/
def runSink : Playback → List WriteRes → List SinkOp → SinkRunResult
  | p, o, [] => ⟨p, o, false⟩
  | p, o, SinkOp.playOp d :: ops =>
    let r := p.play d o
    runSink r.1 r.2.oracle ops
  | p, o, SinkOp.flushOp :: ops =>
    match p.flush o with
    | none => ⟨p, o, true⟩
    | some r => runSink r.1 r.2.oracle ops

/-! ## Speech synthesis session (internal/tts session file)

`Session.readLoop` turns the stream of websocket reads into `AudioChunk`
values on a channel.  One loop iteration observes either cancellation, a read
outcome, or a decoded message; these observations are the input event list.
The unmarshalled Go message has an `isFinal` flag and a base64 `audio` field,
which decodes to bytes, is empty, or is malformed. -/

inductive B64Field
  | emptyField
  | badField
  | okField (data : Bytes)
deriving Repr, DecidableEq

inductive ServerEvent
  | cancelled
  | readClosedNormal
  | readFailed
  | malformed
  | audioMsg (isFinal : Bool) (audio : B64Field)
deriving Repr, DecidableEq

inductive AudioChunk
  | dataChunk (d : Bytes)
  | errChunk (msg : String)
  | doneChunk
deriving Repr, DecidableEq

/-- Go `(*Session).readLoop`, one chunk list per run: cancellation and a
normal close end the run silently; a failed read or an unmarshal/base64
failure emits one Error chunk and ends the run; an `isFinal` message emits the
Done chunk and ends the run; an empty audio payload is skipped; a non-empty
payload is delivered as a Data chunk. -/
def readLoop : List ServerEvent → List AudioChunk
  | [] => []
  | e :: es =>
    match e with
    | ServerEvent.cancelled => []
    | ServerEvent.readClosedNormal => []
    | ServerEvent.readFailed => [AudioChunk.errChunk "ws read"]
    | ServerEvent.malformed => [AudioChunk.errChunk "ws unmarshal"]
    | ServerEvent.audioMsg true _ => [AudioChunk.doneChunk]
    | ServerEvent.audioMsg false B64Field.emptyField => readLoop es
    | ServerEvent.audioMsg false B64Field.badField =>
      [AudioChunk.errChunk "ws base64 decode"]
    | ServerEvent.audioMsg false (B64Field.okField d) =>
      if d.length > 0 then AudioChunk.dataChunk d :: readLoop es else readLoop es

def isTerminal : AudioChunk → Bool
  | AudioChunk.dataChunk _ => false
  | AudioChunk.errChunk _ => true
  | AudioChunk.doneChunk => true

/-- Holds when every chunk except possibly the final one is a Data chunk. -/
def terminalOnlyAtEnd : List AudioChunk → Bool
  | [] => true
  | [_] => true
  | c :: rest => !isTerminal c && terminalOnlyAtEnd rest

def chunkDataNonempty : AudioChunk → Bool
  | AudioChunk.dataChunk d => !d.isEmpty
  | _ => true

/-- The caller-facing session handle: whether the websocket connection has
been closed, and whether the `sync.Once` guarding `Close` has fired. -/
structure SessionState where
  connClosed : Bool
  onceDone : Bool
deriving Repr, DecidableEq

def initSession : SessionState := { connClosed := false, onceDone := false }

/-- A JSON text message written on the websocket by the client
(`wsTextMessage`). -/
structure SentMsg where
  text : String
  tryTrigger : Bool
deriving Repr, DecidableEq

structure SessionWriteResult where
  state : SessionState
  sent : List SentMsg
  err : Option String
deriving Repr, DecidableEq

/-- Writing JSON on the connection: on a closed connection nothing is sent and
the write returns an error, as a closed gorilla/websocket (closed underlying
`net.Conn`) does. -/
def connWriteJSON (s : SessionState) (m : SentMsg) : List SentMsg × Option String :=
  if s.connClosed then ([], some "use of closed network connection") else ([m], none)

/-- Go `(*Session).SendText`: one text message with `try_trigger_generation`. -/
def SessionState.sendText (s : SessionState) (text : String) : SessionWriteResult :=
  let r := connWriteJSON s ⟨text, true⟩
  ⟨s, r.1, r.2⟩

/-- Go `(*Session).Flush`: the empty-text end-of-input sentinel. -/
def SessionState.flush (s : SessionState) : SessionWriteResult :=
  let r := connWriteJSON s ⟨"", false⟩
  ⟨s, r.1, r.2⟩

/-- Go `(*Session).Close`: under `sync.Once`, cancel the read loop and close
the connection; always returns nil. -/
def SessionState.close (s : SessionState) : SessionState × Option String :=
  if s.onceDone then (s, none)
  else ({ connClosed := true, onceDone := true }, none)

/-! ## WAV container (`EncodeWAV` of the internal audio package) -/

/-- Go `binary.LittleEndian.PutUint32(b, uint32(v))`: four bytes of the value
truncated to 32 bits, least significant first. -/
def putU32 (v : Nat) : List Nat :=
  let w := v % 4294967296
  [w % 256, w / 256 % 256, w / 65536 % 256, w / 16777216 % 256]

/-- Go `binary.LittleEndian.PutUint16(b, uint16(v))`. -/
def putU16 (v : Nat) : List Nat :=
  let w := v % 65536
  [w % 256, w / 256 % 256]

/-- Go `EncodeWAV`: the 44-byte RIFF/WAVE header laid out field by field,
followed by the PCM payload unchanged. -/
def encodeWAV (pcm : Bytes) (sampleRate channels bitsPerSample : Nat) : Bytes :=
  let dataSize := pcm.length
  let fileSize := 36 + dataSize
  let byteRate := sampleRate * channels * bitsPerSample / 8
  let blockAlign := channels * bitsPerSample / 8
  [0x52, 0x49, 0x46, 0x46] ++ putU32 fileSize ++
  [0x57, 0x41, 0x56, 0x45] ++ [0x66, 0x6d, 0x74, 0x20] ++
  putU32 16 ++ putU16 1 ++ putU16 channels ++ putU32 sampleRate ++
  putU32 byteRate ++ putU16 blockAlign ++ putU16 bitsPerSample ++
  [0x64, 0x61, 0x74, 0x61] ++ putU32 dataSize ++ pcm

/-- Little-endian 32-bit field decoder for header inspection. -/
def readU32 (l : Bytes) (off : Nat) : Nat :=
  l.getD off 0 + 256 * l.getD (off + 1) 0 + 65536 * l.getD (off + 2) 0 +
    16777216 * l.getD (off + 3) 0

/-- Little-endian 16-bit field decoder for header inspection. -/
def readU16 (l : Bytes) (off : Nat) : Nat :=
  l.getD off 0 + 256 * l.getD (off + 1) 0

/-! ## Web search tool (internal/tools/websearch.go)

The handler's effects are supplied as explicit inputs: whether the tool call
parameters unmarshal, and the outcome of the HTTP request.  The result is the
tool response, the returned Go error, and the number of network requests
performed. -/

structure ToolResponse where
  text : String
  isError : Bool
deriving Repr, DecidableEq

def newTextErrorResponse (s : String) : ToolResponse := ⟨s, true⟩

def newTextResponse (s : String) : ToolResponse := ⟨s, false⟩

inductive SerpBody
  | badBody
  | results (rs : List (String × String × String))
deriving Repr, DecidableEq

inductive HttpOutcome
  | transportErr (e : String)
  | status (code : Nat) (body : SerpBody)
deriving Repr, DecidableEq

/-- One formatted result line of the Go output. -/
def formatResult (i : Nat) (r : String × String × String) : String :=
  toString (i + 1) ++ ". " ++ r.1 ++ "\n   " ++ r.2.2 ++ "\n   " ++ r.2.1 ++ "\n\n"

/-- Go `(*WebSearchTool).Run`.  With an empty API key it answers a fixed
unavailable text, a nil error and performs no request; otherwise it parses the
parameters, performs one HTTP request and formats the outcome, every failure
being degraded to a textual error response with a nil Go error. -/
def webSearchRun (apiKey : String) (query : Option String)
    (http : HttpOutcome) : ToolResponse × Option String × Nat :=
  if apiKey = "" then
    (newTextErrorResponse "Web search unavailable (SERPAPI_KEY not set)", none, 0)
  else
    match query with
    | none => (newTextErrorResponse "Invalid parameters", none, 0)
    | some q =>
      match http with
      | HttpOutcome.transportErr e =>
        (newTextErrorResponse ("Failed to search web: " ++ e), none, 1)
      | HttpOutcome.status code body =>
        if code ≠ 200 then
          (newTextErrorResponse ("Search API returned status " ++ toString code),
           none, 1)
        else
          match body with
          | SerpBody.badBody =>
            (newTextErrorResponse "Failed to parse response", none, 1)
          | SerpBody.results [] =>
            (newTextResponse ("No results found for '" ++ q ++ "'"), none, 1)
          | SerpBody.results rs =>
            (newTextResponse (("Web search results for '" ++ q ++ "':\n\n") ++
              String.join ((rs.enum.map (fun p => formatResult p.1 p.2)))),
             none, 1)

/-! ## Conversational turn (cmd/smarthome/main.go)

One iteration of the utterance loop after a successful transcription:
trim the transcript; when empty, skip the turn entirely; otherwise append the
user message, open one synthesis session, accumulate the streamed content
deltas as the reply, and append the assistant message when the trimmed reply
is non-empty.  Text is modelled as character lists; the Go
`strings.TrimSpace` white space set is modelled by its Latin-1 portion. -/

inductive ChatMsg
  | systemMsg (text : List Char)
  | userMsg (text : List Char)
  | assistantMsg (text : List Char)
deriving Repr, DecidableEq

inductive LLMEvent
  | contentDelta (text : List Char)
  | errorEvent (msg : String)
deriving Repr, DecidableEq

/-- Go `unicode.IsSpace` on the Latin-1 range: space, tab, newline, vertical
tab, form feed, carriage return, NEL and NBSP. -/
def goIsSpace (c : Char) : Bool :=
  c.toNat = 32 || c.toNat = 9 || c.toNat = 10 || c.toNat = 11 ||
  c.toNat = 12 || c.toNat = 13 || c.toNat = 133 || c.toNat = 160

/-- Go `strings.TrimSpace`: drop white space from both ends. -/
def goTrimSpace (s : List Char) : List Char :=
  ((s.dropWhile goIsSpace).reverse.dropWhile goIsSpace).reverse

structure TurnResult where
  history : List ChatMsg
  sessionsOpened : Nat
deriving Repr, DecidableEq

/-- The reply accumulated by the generation stream consumer: the concatenation
of the content deltas, in order. -/
def accumulateReply (events : List LLMEvent) : List Char :=
  events.foldl (fun acc e =>
    match e with
    | LLMEvent.contentDelta t => acc ++ t
    | LLMEvent.errorEvent _ => acc) []

/-- One conversational turn of `main` after a successful transcription,
abstracting the synthesis and playback collaborators; `sessionsOpened` counts
the synthesis sessions the turn asked to open. -/
def runTurn (history : List ChatMsg) (transcript : List Char)
    (events : List LLMEvent) : TurnResult :=
  let text := goTrimSpace transcript
  if text = [] then ⟨history, 0⟩
  else
    let history1 := history ++ [ChatMsg.userMsg text]
    let replyText := goTrimSpace (accumulateReply events)
    ⟨if replyText = [] then history1
      else history1 ++ [ChatMsg.assistantMsg replyText], 1⟩

/-! ## Abstraction relation between the ring buffer and its push history -/

/-- Index into the push history `q` (length `n`, ring size `s`) of the most
recent push that landed in ring slot `i`. -/
def lastIdx (n s i : Nat) : Nat :=
  if i < n % s then n - n % s + i else n - n % s - s + i

/-- Ring slot `i` has been written since the last drain of a ring of size `s`
with push history of length `n`. -/
def slotFresh (n s i : Nat) : Prop := i < n % s ∨ s ≤ n

/-- The ring buffer `r` of size `preB` represents the list `q` of frames
pushed since its last drain: the write position and wrap flag are determined
by `q.length`, and every freshly written slot holds the most recent frame
pushed into it.  Slots not written since the last drain are unconstrained
(they hold `nil` or stale frames the drain will not visit). -/
def RingRep (preB : Nat) (r : RingBuffer) (q : List Bytes) : Prop :=
  r.size = preB ∧ r.buf.length = preB ∧ r.pos = q.length % preB ∧
  r.full = decide (preB ≤ q.length) ∧
  ∀ i, i < preB → slotFresh q.length preB i →
    r.buf.getD i none = some (q.getD (lastIdx q.length preB i) [])

/-- The capture loop state and the reference segmenter state agree, the ring
being abstracted by its push history. -/
def StateRel (preB : Nat) (s : CaptureState) (t : SegSpecState) : Prop :=
  s.utterance = t.utterance ∧ s.silenceCount = t.silenceCount ∧
  s.speaking = t.speaking ∧ RingRep preB s.ring t.pushed

/-! ## Helper lemmas: `setNth`, list indexing, modular arithmetic -/

theorem setNth_length {α : Type} (l : List α) (i : Nat) (v : α) :
    (setNth l i v).length = l.length := by
  induction l generalizing i with
  | nil => rfl
  | cons h t ih =>
    cases i with
    | zero => rfl
    | succ j => simpa [setNth] using ih j

theorem getD_setNth_same {α : Type} (l : List α) (i : Nat) (v d : α)
    (h : i < l.length) : (setNth l i v).getD i d = v := by
  induction l generalizing i with
  | nil => simp at h
  | cons a t ih =>
    cases i with
    | zero => rfl
    | succ j =>
      simp only [setNth, List.getD_cons_succ]
      exact ih j (by simpa using h)

theorem getD_setNth_ne {α : Type} (l : List α) (i j : Nat) (v d : α)
    (h : i ≠ j) : (setNth l i v).getD j d = l.getD j d := by
  induction l generalizing i j with
  | nil => rfl
  | cons a t ih =>
    cases i with
    | zero =>
      cases j with
      | zero => exact absurd rfl h
      | succ k => rfl
    | succ i' =>
      cases j with
      | zero => rfl
      | succ k =>
        simp only [setNth, List.getD_cons_succ]
        exact ih i' k (by omega)

theorem succ_mod_cases (s n : Nat) (hs : 0 < s) :
    ((n + 1) % s = n % s + 1 ∧ n % s + 1 < s) ∨
    ((n + 1) % s = 0 ∧ n % s + 1 = s) := by
  have hb : n % s < s := Nat.mod_lt _ hs
  have h1 : (n + 1) % s = (n % s + 1) % s := by
    conv_lhs => rw [← Nat.div_add_mod n s]
    rw [Nat.add_assoc, Nat.mul_add_mod]
  rcases Nat.lt_or_ge (n % s + 1) s with h | h
  · exact Or.inl ⟨by rw [h1, Nat.mod_eq_of_lt h], h⟩
  · have he : n % s + 1 = s := by omega
    exact Or.inr ⟨by rw [h1, he, Nat.mod_self], he⟩

theorem sub_mod_ge (s n : Nat) (hs : 0 < s) (hn : s ≤ n) : s ≤ n - n % s := by
  have h1 : n - n % s = s * (n / s) := by
    have := Nat.div_add_mod n s
    omega
  have h2 : 1 ≤ n / s := (Nat.one_le_div_iff hs).mpr hn
  calc s = s * 1 := by ring
    _ ≤ s * (n / s) := Nat.mul_le_mul_left s h2
    _ = n - n % s := h1.symm

theorem filterMap_eq_map_of_mem {α β : Type} {l : List α} {f : α → Option β}
    {g : α → β} (h : ∀ a ∈ l, f a = some (g a)) : l.filterMap f = l.map g := by
  induction l with
  | nil => rfl
  | cons a t ih =>
    rw [List.filterMap_cons, h a (List.mem_cons_self a t), List.map_cons,
      ih (fun a ha => h a (List.mem_cons_of_mem _ ha))]

theorem map_getD_range {α : Type} (l : List α) (d : α) :
    (List.range l.length).map (fun i => l.getD i d) = l := by
  induction l with
  | nil => rfl
  | cons a t ih =>
    rw [List.length_cons, List.range_succ_eq_map, List.map_cons,
      List.map_map]
    simp only [List.getD_cons_zero, Function.comp_def, Nat.succ_eq_add_one,
      List.getD_cons_succ]
    rw [ih]

theorem drop_eq_map_range {α : Type} (l : List α) (a : Nat) (d : α)
    (ha : a ≤ l.length) :
    l.drop a = (List.range (l.length - a)).map (fun t => l.getD (a + t) d) := by
  apply List.ext_getElem
  · simp
  · intro i h1 h2
    have hi : i < l.length - a := by simpa using h1
    have hai : a + i < l.length := by omega
    rw [List.getElem_drop]
    rw [List.getElem_map, List.getElem_range]
    rw [List.getD_eq_getElem l d hai]

theorem foldl_collectSlot (buf : List (Option Bytes)) :
    ∀ (slots : List Nat) (acc : Bytes),
      slots.foldl (collectSlot buf) acc =
        acc ++ (slots.filterMap (fun i => buf.getD i none)).flatten := by
  intro slots
  induction slots with
  | nil => intro acc; simp
  | cons i rest ih =>
    intro acc
    cases hbi : buf.getD i none with
    | none =>
      rw [List.foldl_cons, ih, List.filterMap_cons]
      unfold collectSlot
      rw [hbi]
    | some f =>
      rw [List.foldl_cons, ih, List.filterMap_cons]
      unfold collectSlot
      rw [hbi]
      simp [List.append_assoc]

/-! ## Ring buffer abstraction lemmas -/

theorem ringRep_init (preB : Nat) (h : 0 < preB) :
    RingRep preB (newRingBuffer preB) [] := by
  refine ⟨rfl, by simp [newRingBuffer], by simp [newRingBuffer], ?_, ?_⟩
  · have hne : ¬ (preB ≤ 0) := by omega
    simp [newRingBuffer, hne]
  · intro i hi hf
    rcases hf with hf | hf
    · simp at hf
    · simp only [List.length_nil] at hf
      omega

theorem lastIdx_stable (preB n i : Nat) (hs : 0 < preB) (hi : i < preB)
    (hne : i ≠ n % preB) (hf : slotFresh (n + 1) preB i) :
    slotFresh n preB i ∧ lastIdx (n + 1) preB i = lastIdx n preB i ∧
      lastIdx n preB i < n := by
  have hb : n % preB < preB := Nat.mod_lt _ hs
  have hble : n % preB ≤ n := Nat.mod_le _ _
  have hsub : preB ≤ n → preB ≤ n - n % preB := sub_mod_ge preB n hs
  have hsmall : n < preB → n % preB = n := fun hlt => Nat.mod_eq_of_lt hlt
  rcases succ_mod_cases preB n hs with ⟨h1, h2⟩ | ⟨h1, h2⟩
  all_goals
    unfold slotFresh at hf ⊢
    unfold lastIdx
    rw [h1] at hf ⊢
    set b := n % preB
    split_ifs <;> omega

theorem ringRep_push (preB : Nat) (hs : 0 < preB) {r : RingBuffer}
    {q : List Bytes} (f : Bytes) (hr : RingRep preB r q) :
    RingRep preB (r.push f) (q ++ [f]) := by
  obtain ⟨hsize, hlen, hpos, hfull, hslot⟩ := hr
  have hb : q.length % preB < preB := Nat.mod_lt _ hs
  have hble : q.length % preB ≤ q.length := Nat.mod_le _ _
  have hpos' : (r.pos + 1) % r.size = (q.length + 1) % preB := by
    rw [hpos, hsize]
    conv_rhs => rw [← Nat.div_add_mod q.length preB]
    rw [Nat.add_assoc, Nat.mul_add_mod]
  refine ⟨by simp [RingBuffer.push, hsize], ?_, ?_, ?_, ?_⟩
  · simp [RingBuffer.push, setNth_length, hlen]
  · simp [RingBuffer.push, hpos']
  · show (r.full || ((r.pos + 1) % r.size == 0)) = decide (preB ≤ (q ++ [f]).length)
    rw [hfull, hpos']
    simp only [List.length_append, List.length_cons, List.length_nil]
    rcases succ_mod_cases preB q.length hs with ⟨h1, h2⟩ | ⟨h1, h2⟩
    · rw [h1]
      have h0 : (q.length % preB + 1 == 0) = false := by simp
      rw [h0, Bool.or_false]
      rw [decide_eq_decide]
      rcases Nat.lt_or_ge q.length preB with hc | hc
      · have hm := Nat.mod_eq_of_lt hc
        omega
      · omega
    · rw [h1]
      have hle : preB ≤ q.length + 0 + 1 := by omega
      simp [hle]
  · intro i hi hf
    simp only [List.length_append, List.length_cons, List.length_nil,
      Nat.add_zero] at hf ⊢
    rcases Decidable.em (i = q.length % preB) with hieq | hieq
    · subst hieq
      have hset : (r.push f).buf.getD (q.length % preB) none = some f := by
        show (setNth r.buf r.pos (some f)).getD (q.length % preB) none = some f
        rw [hpos]
        exact getD_setNth_same _ _ _ _ (by omega)
      rw [hset]
      have hidx : lastIdx (q.length + 1) preB (q.length % preB) = q.length := by
        unfold lastIdx
        rcases succ_mod_cases preB q.length hs with ⟨h1, _⟩ | ⟨h1, h2⟩ <;>
          rw [h1] <;> split_ifs <;> omega
      rw [hidx]
      rw [List.getD_append_right q [f] [] q.length (le_refl _)]
      simp
    · have hset : (r.push f).buf.getD i none = r.buf.getD i none := by
        show (setNth r.buf r.pos (some f)).getD i none = r.buf.getD i none
        rw [hpos]
        exact getD_setNth_ne _ _ _ _ _ (fun he => hieq he.symm)
      obtain ⟨hf0, hidx, hlt⟩ :=
        lastIdx_stable preB q.length i hs hi hieq hf
      rw [hset, hidx, hslot i hi hf0]
      rw [List.getD_append q [f] [] _ hlt]

theorem ringRep_drain (preB : Nat) (hs : 0 < preB) {r : RingBuffer}
    {q : List Bytes} (hr : RingRep preB r q) :
    (r.drain).1 = (takeLast preB q).flatten ∧ RingRep preB (r.drain).2 [] := by
  obtain ⟨hsize, hlen, hpos, hfull, hslot⟩ := hr
  constructor
  · show ((drainSlots r).foldl (collectSlot r.buf) []) = (takeLast preB q).flatten
    rw [foldl_collectSlot, List.nil_append]
    suffices h : (drainSlots r).filterMap (fun i => r.buf.getD i none) =
        takeLast preB q by rw [h]
    rcases Nat.lt_or_ge q.length preB with hc | hc
    · -- not yet wrapped: the drain reads slots 0 .. pos-1
      have hfb : r.full = false := by
        rw [hfull]
        simp only [decide_eq_false_iff_not]
        omega
      have hbn : q.length % preB = q.length := Nat.mod_eq_of_lt hc
      have hslots : drainSlots r = List.range q.length := by
        unfold drainSlots
        rw [hfb, hpos, hbn]
        simp
      rw [hslots]
      rw [filterMap_eq_map_of_mem (g := fun i => q.getD i []) ?_]
      · rw [map_getD_range]
        unfold takeLast
        have hz : q.length - preB = 0 := by omega
        rw [hz, List.drop_zero]
      · intro i hmem
        have hilt : i < q.length := List.mem_range.mp hmem
        have hidx : lastIdx q.length preB i = i := by
          unfold lastIdx
          rw [hbn, if_pos hilt]
          omega
        rw [hslot i (by omega) (Or.inl (by omega)), hidx]
    · -- wrapped: slots pos .. size-1 then 0 .. pos-1 give the last preB pushes
      have hfb : r.full = true := by
        rw [hfull]
        simp [hc]
      have hnb : preB ≤ q.length - q.length % preB := sub_mod_ge preB q.length hs hc
      have hb : q.length % preB < preB := Nat.mod_lt _ hs
      have hble : q.length % preB ≤ q.length := Nat.mod_le _ _
      have hslots : drainSlots r =
          List.range' (q.length % preB) (preB - q.length % preB) ++
            List.range (q.length % preB) := by
        unfold drainSlots
        rw [hfb, hpos, hsize]
        simp
      rw [hslots, List.filterMap_append]
      have hpart1 : (List.range' (q.length % preB) (preB - q.length % preB)).filterMap
            (fun i => r.buf.getD i none) =
          (List.range (preB - q.length % preB)).map
            (fun t => q.getD (q.length - preB + t) []) := by
        rw [List.range'_eq_map_range, List.filterMap_map]
        apply filterMap_eq_map_of_mem
        intro t hmem
        have ht : t < preB - q.length % preB := List.mem_range.mp hmem
        have hidx : lastIdx q.length preB (q.length % preB + t) =
            q.length - preB + t := by
          unfold lastIdx
          rw [if_neg (by omega)]
          omega
        have := hslot (q.length % preB + t) (by omega) (Or.inr hc)
        rw [Function.comp_apply, this, hidx]
      have hpart2 : (List.range (q.length % preB)).filterMap
            (fun i => r.buf.getD i none) =
          (List.range (q.length % preB)).map
            (fun i => q.getD (q.length - q.length % preB + i) []) := by
        apply filterMap_eq_map_of_mem
        intro i hmem
        have hilt : i < q.length % preB := List.mem_range.mp hmem
        have hidx : lastIdx q.length preB i = q.length - q.length % preB + i := by
          unfold lastIdx
          rw [if_pos hilt]
        rw [hslot i (by omega) (Or.inl hilt), hidx]
      rw [hpart1, hpart2]
      unfold takeLast
      rw [drop_eq_map_range q (q.length - preB) [] (by omega)]
      have hlen2 : q.length - (q.length - preB) = preB := by omega
      rw [hlen2]
      have hsplit : List.range preB = List.range (preB - q.length % preB) ++
          (List.range (q.length % preB)).map
            (fun t => (preB - q.length % preB) + t) := by
        have happ := List.range'_append 0 (preB - q.length % preB)
          (q.length % preB) 1
        rw [show (0 + 1 * (preB - q.length % preB)) = preB - q.length % preB
          by omega] at happ
        rw [show (q.length % preB + (preB - q.length % preB)) = preB
          by omega] at happ
        rw [← List.range'_eq_map_range]
        rw [List.range_eq_range' preB,
          List.range_eq_range' (preB - q.length % preB)]
        exact happ.symm
      rw [hsplit, List.map_append, List.map_map]
      congr 1
      apply List.map_congr_left
      intro t hmem
      have ht : t < q.length % preB := List.mem_range.mp hmem
      simp only [Function.comp_apply]
      congr 1
      omega
  · refine ⟨by simp [RingBuffer.drain, hsize], by simp [RingBuffer.drain, hlen],
      by simp [RingBuffer.drain], ?_, ?_⟩
    · have hne : ¬ (preB ≤ 0) := by omega
      simp [RingBuffer.drain, hne]
    · intro i hi hf
      rcases hf with hf | hf
      · simp at hf
      · simp only [List.length_nil] at hf
        omega

/-! ## Bisimulation between the capture loop and the reference segmenter -/

theorem captureStep_refines (silF preB : Nat) (hs : 0 < preB)
    {s : CaptureState} {t : SegSpecState} (f : Frame) (h : StateRel preB s t) :
    (captureStep silF s f).2 = (segSpecStep silF preB t f).2 ∧
    StateRel preB (captureStep silF s f).1 (segSpecStep silF preB t f).1 := by
  obtain ⟨hu, hc, hsp, hr⟩ := h
  cases hact : f.active with
  | true =>
    cases hspk : s.speaking with
    | true =>
      have hspt : t.speaking = true := by rw [← hsp, hspk]
      constructor
      · simp [captureStep, segSpecStep, hact, hspk, hspt]
      · unfold StateRel
        simp only [captureStep, segSpecStep, hact, hspk, hspt, if_true]
        exact ⟨by rw [hu], hc, trivial, hr⟩
    | false =>
      have hspt : t.speaking = false := by rw [← hsp, hspk]
      obtain ⟨hd1, hd2⟩ := ringRep_drain preB hs hr
      constructor
      · simp [captureStep, segSpecStep, hact, hspk, hspt]
      · unfold StateRel
        simp only [captureStep, segSpecStep, hact, hspk, hspt, if_true,
          Bool.false_eq_true, if_false]
        exact ⟨by rw [hd1], trivial, trivial, hd2⟩
  | false =>
    have hpush := ringRep_push preB hs f.data hr
    cases hspk : s.speaking with
    | true =>
      have hspt : t.speaking = true := by rw [← hsp, hspk]
      by_cases hth : silF ≤ t.silenceCount + 1
      · constructor
        · simp [captureStep, segSpecStep, hact, hspk, hspt, hc, hth, hu]
        · unfold StateRel
          simp only [captureStep, segSpecStep, hact, Bool.false_eq_true,
            if_false, hspk, hspt, if_true, hc, hth]
          exact ⟨trivial, trivial, trivial, hpush⟩
      · constructor
        · simp [captureStep, segSpecStep, hact, hspk, hspt, hc, hth]
        · unfold StateRel
          simp only [captureStep, segSpecStep, hact, Bool.false_eq_true,
            if_false, hspk, hspt, if_true, hc, hth]
          exact ⟨by rw [hu], trivial, trivial, hpush⟩
    | false =>
      have hspt : t.speaking = false := by rw [← hsp, hspk]
      constructor
      · simp [captureStep, segSpecStep, hact, hspk, hspt]
      · unfold StateRel
        simp only [captureStep, segSpecStep, hact, Bool.false_eq_true,
          if_false, hspk, hspt]
        exact ⟨hu, hc, trivial, hpush⟩

theorem captureRun_eq_segSpecRun (silF preB : Nat) (hs : 0 < preB) :
    ∀ (fs : List Frame) (s : CaptureState) (t : SegSpecState),
      StateRel preB s t →
      captureRun silF s fs = segSpecRun silF preB t fs := by
  intro fs
  induction fs with
  | nil => intro s t _; rfl
  | cons f rest ih =>
    intro s t h
    have hstep := captureStep_refines silF preB hs f h
    unfold captureRun segSpecRun
    rcases e1 : captureStep silF s f with ⟨s', out1⟩
    rcases e2 : segSpecStep silF preB t f with ⟨t', out2⟩
    rw [e1, e2] at hstep
    obtain ⟨hout, hrel⟩ := hstep
    simp only at hout hrel
    subst hout
    cases out1 with
    | none => exact ih s' t' hrel
    | some u => exact congrArg (fun l => u :: l) (ih s' t' hrel)

/-! ## Emission counting for the capture loop -/

theorem captureRun_length_eq (silF : Nat) :
    ∀ (fs : List Frame) (s : CaptureState),
      (captureRun silF s fs).length =
        segmenterEmits silF s.speaking s.silenceCount (fs.map Frame.active) := by
  intro fs
  induction fs with
  | nil => intro s; rfl
  | cons f rest ih =>
    intro s
    cases hact : f.active with
    | true =>
      cases hspk : s.speaking with
      | true =>
        simp only [captureRun, captureStep, hact, if_true, List.map_cons,
          segmenterEmits, hspk]
        exact ih _
      | false =>
        simp only [captureRun, captureStep, hact, if_true, List.map_cons,
          segmenterEmits, hspk, Bool.false_eq_true, if_false]
        exact ih _
    | false =>
      cases hspk : s.speaking with
      | true =>
        by_cases hth : silF ≤ s.silenceCount + 1
        · simp only [captureRun, captureStep, hact, Bool.false_eq_true,
            if_false, hspk, if_true, hth, List.map_cons, segmenterEmits,
            List.length_cons]
          rw [ih]
          ring
        · simp only [captureRun, captureStep, hact, Bool.false_eq_true,
            if_false, hspk, if_true, hth, List.map_cons, segmenterEmits]
          exact ih _
      | false =>
        simp only [captureRun, captureStep, hact, Bool.false_eq_true,
          if_false, hspk, List.map_cons, segmenterEmits]
        exact ih _

/-! ## Claim C1: utterance boundary condition -/

/-- C1, counterexample to the claim as stated.  With `silenceFrames = 2`, the
frame sequence active, inactive, active, inactive makes the capture loop emit
exactly one utterance, although the classification stream
`[true, false, true, false]` contains no contiguous run of 2 inactive frames
at any position (checking starts `i < 3` covers every run): the intervening
active frame does not reset the silence counter, so the claimed
if-and-only-if with a contiguous run fails in the only-if direction. -/
theorem c1_contiguous_run_counterexample :
    (captureRun 2 (initCaptureState 8)
        [⟨true, [1]⟩, ⟨false, [2]⟩, ⟨true, [3]⟩, ⟨false, [4]⟩]).length = 1 ∧
    (∀ i < 3, ¬ ([true, false, true, false].getD i true = false ∧
        [true, false, true, false].getD (i + 1) true = false)) := by
  decide

/-- C1, amended: for every frame sequence and positive pre-buffer size, the
number of utterances the capture loop emits equals the count computed by the
specification's own per-frame algorithm (§4.1): the silence counter is reset
only on the not-speaking-to-speaking transition and at emission, every
inactive frame while speaking increments it (intervening active frames do not
reset it), and an utterance is emitted exactly when the cumulative count
reaches `silenceFrames`. -/
theorem c1_emission_count_matches_cumulative_silence
    (silenceFrames preBufferFrames : Nat) (fs : List Frame)
    (_hpre : 1 ≤ preBufferFrames) :
    (captureRun silenceFrames (initCaptureState preBufferFrames) fs).length =
      segmenterEmits silenceFrames false 0 (fs.map Frame.active) :=
  captureRun_length_eq silenceFrames fs (initCaptureState preBufferFrames)

/-- C1, witness: the amended theorem applied at a concrete input. -/
theorem c1_witness :
    1 ≤ 8 ∧
    (captureRun 2 (initCaptureState 8)
        [⟨true, [1]⟩, ⟨false, [2]⟩, ⟨true, [3]⟩, ⟨false, [4]⟩]).length =
      segmenterEmits 2 false 0
        ([(⟨true, [1]⟩ : Frame), ⟨false, [2]⟩, ⟨true, [3]⟩,
          ⟨false, [4]⟩].map Frame.active) :=
  ⟨by decide,
   c1_emission_count_matches_cumulative_silence 2 8
     [⟨true, [1]⟩, ⟨false, [2]⟩, ⟨true, [3]⟩, ⟨false, [4]⟩] (by decide)⟩

/-! ## Claim C2: utterance prefix and the pre-roll ring -/

/-- C2, counterexample to the claim as stated.  With `silenceFrames = 3` and
`preBufferFrames = 8`, run the loop on
f1 = active [1], f2 = inactive [2], f3 = active [3], f4 = inactive [4],
f5 = inactive [5] (first emission), f6 = active [6] (second onset),
f7, f8, f9 = inactive [7], [8], [9] (second emission).  Three frames were
pushed into the ring since its previous drain (f2, f4, f5), so the claim
predicts the second utterance starts with the last three frames immediately
preceding the onset f6, namely f3 ++ f4 ++ f5 = [3, 4, 5]; the code instead
produces the pushed frames f2 ++ f4 ++ f5 = [2, 4, 5], because f2 was pushed
while speaking and the active frame f3 after it was not. -/
theorem c2_preroll_counterexample :
    (captureRun 3 (initCaptureState 8)
        [⟨true, [1]⟩, ⟨false, [2]⟩, ⟨true, [3]⟩, ⟨false, [4]⟩, ⟨false, [5]⟩,
         ⟨true, [6]⟩, ⟨false, [7]⟩, ⟨false, [8]⟩, ⟨false, [9]⟩]).getD 1 [] =
      [2, 4, 5, 6, 7, 8, 9] ∧
    ((([(⟨true, [1]⟩ : Frame), ⟨false, [2]⟩, ⟨true, [3]⟩, ⟨false, [4]⟩,
        ⟨false, [5]⟩, ⟨true, [6]⟩, ⟨false, [7]⟩, ⟨false, [8]⟩,
        ⟨false, [9]⟩].map Frame.data).drop 2).take 3).flatten = [3, 4, 5] ∧
    ((captureRun 3 (initCaptureState 8)
        [⟨true, [1]⟩, ⟨false, [2]⟩, ⟨true, [3]⟩, ⟨false, [4]⟩, ⟨false, [5]⟩,
         ⟨true, [6]⟩, ⟨false, [7]⟩, ⟨false, [8]⟩,
         ⟨false, [9]⟩]).getD 1 []).take 3 ≠ [3, 4, 5] := by
  decide

/-- C2, amended: for every frame sequence and positive pre-buffer size the
capture loop emits exactly the utterances of the reference segmenter, whose
states record the plain list of frames pushed into the ring since its last
drain and which, at each speech onset, prefixes the utterance with the last
`min(preBufferFrames, number of frames pushed since the previous drain)`
pushed frames, concatenated in arrival order.  (The pushed frames are the
inactive frames observed since the previous drain; they immediately precede
the onset only when no active frame intervened after one of them.) -/
theorem c2_capture_refines_segmenter_spec
    (silenceFrames preBufferFrames : Nat) (fs : List Frame)
    (hpre : 1 ≤ preBufferFrames) :
    captureRun silenceFrames (initCaptureState preBufferFrames) fs =
      segSpecRun silenceFrames preBufferFrames initSegSpecState fs :=
  captureRun_eq_segSpecRun silenceFrames preBufferFrames hpre fs
    (initCaptureState preBufferFrames) initSegSpecState
    ⟨rfl, rfl, rfl, ringRep_init preBufferFrames hpre⟩

/-- C2, witness: the amended theorem applied at a concrete input. -/
theorem c2_witness :
    1 ≤ 8 ∧
    captureRun 3 (initCaptureState 8)
        [⟨true, [1]⟩, ⟨false, [2]⟩, ⟨true, [3]⟩, ⟨false, [4]⟩, ⟨false, [5]⟩,
         ⟨true, [6]⟩, ⟨false, [7]⟩, ⟨false, [8]⟩, ⟨false, [9]⟩] =
      segSpecRun 3 8 initSegSpecState
        [⟨true, [1]⟩, ⟨false, [2]⟩, ⟨true, [3]⟩, ⟨false, [4]⟩, ⟨false, [5]⟩,
         ⟨true, [6]⟩, ⟨false, [7]⟩, ⟨false, [8]⟩, ⟨false, [9]⟩] :=
  ⟨by decide,
   c2_capture_refines_segmenter_spec 3 8
     [⟨true, [1]⟩, ⟨false, [2]⟩, ⟨true, [3]⟩, ⟨false, [4]⟩, ⟨false, [5]⟩,
      ⟨true, [6]⟩, ⟨false, [7]⟩, ⟨false, [8]⟩, ⟨false, [9]⟩] (by decide)⟩

/-! ## Playback lemmas -/

theorem decodePCM_length : ∀ (l : List Nat), (decodePCM l).length = l.length / 2
  | [] => rfl
  | [_] => by simp [decodePCM]
  | b0 :: b1 :: rest => by
    have ih := decodePCM_length rest
    simp only [decodePCM, List.length_cons, ih]
    omega

theorem noFail_streamWrite {o : List WriteRes} (h : NoFail o) :
    (streamWrite false o).1 ≠ WriteRes.failMsg ∧
      NoFail (streamWrite false o).2 := by
  cases o with
  | nil =>
    constructor
    · simp [streamWrite]
    · intro r hr
      simp [streamWrite] at hr
  | cons r rest =>
    constructor
    · simpa [streamWrite] using h r (List.mem_cons_self r rest)
    · intro x hx
      refine h x ?_
      simp [streamWrite] at hx
      exact List.mem_cons_of_mem _ hx

theorem playLoop_noFail (fs : Nat) (hfs : 0 < fs) :
    ∀ (n : Nat) (pending : List Nat), pending.length ≤ n →
      ∀ (o : List WriteRes), NoFail o →
      (playLoop fs false pending o).err = none ∧
      (playLoop fs false pending o).pending.length =
        pending.length % (fs * 2) ∧
      (playLoop fs false pending o).calls.length =
        pending.length / (fs * 2) ∧
      NoFail (playLoop fs false pending o).oracle ∧
      ∀ c ∈ (playLoop fs false pending o).calls, c.frame.length = fs := by
  intro n
  induction n with
  | zero =>
    intro pending hlen o hnf
    have hg : ¬ (0 < fs ∧ fs * 2 ≤ pending.length) := by omega
    rw [playLoop, dif_neg hg]
    refine ⟨rfl, ?_, ?_, hnf, by intro c hc; simp at hc⟩
    · have : pending.length % (fs * 2) = pending.length :=
        Nat.mod_eq_of_lt (by omega)
      simp [this]
    · have : pending.length / (fs * 2) = 0 := Nat.div_eq_of_lt (by omega)
      simp [this]
  | succ n ih =>
    intro pending hlen o hnf
    by_cases hg : 0 < fs ∧ fs * 2 ≤ pending.length
    · obtain ⟨hwne, hnf'⟩ := noFail_streamWrite hnf
      have hdrop : (pending.drop (fs * 2)).length ≤ n := by
        simp only [List.length_drop]
        omega
      obtain ⟨e2, p2, c2, nf2, fr2⟩ :=
        ih (pending.drop (fs * 2)) hdrop (streamWrite false o).2 hnf'
      have hframe : (decodePCM (pending.take (fs * 2))).length = fs := by
        rw [decodePCM_length, List.length_take]
        have : fs * 2 ⊓ pending.length = fs * 2 := by omega
        rw [this, Nat.mul_div_cancel fs (by omega)]
      have hmod : pending.length % (fs * 2) =
          (pending.length - fs * 2) % (fs * 2) :=
        Nat.mod_eq_sub_mod (by omega)
      have hdiv : pending.length / (fs * 2) =
          (pending.length - fs * 2) / (fs * 2) + 1 :=
        Nat.div_eq_sub_div (by omega) (by omega)
      rcases hwc : (streamWrite false o).1 with _ | _ | _
      · rw [playLoop, dif_pos hg]
        simp only [hwc]
        refine ⟨e2, ?_, ?_, nf2, ?_⟩
        · simpa [List.length_drop, ← hmod] using p2
        · simp only [List.length_cons, c2, List.length_drop]
          omega
        · intro c hc
          rcases List.mem_cons.mp hc with hc | hc
          · rw [hc]
            exact hframe
          · exact fr2 c hc
      · rw [playLoop, dif_pos hg]
        simp only [hwc]
        refine ⟨e2, ?_, ?_, nf2, ?_⟩
        · simpa [List.length_drop, ← hmod] using p2
        · simp only [List.length_cons, c2, List.length_drop]
          omega
        · intro c hc
          rcases List.mem_cons.mp hc with hc | hc
          · rw [hc]
            exact hframe
          · exact fr2 c hc
      · exact absurd hwc hwne
    · rw [playLoop, dif_neg hg]
      have hlt : pending.length < fs * 2 := by omega
      refine ⟨rfl, ?_, ?_, hnf, by intro c hc; simp at hc⟩
      · simp [Nat.mod_eq_of_lt hlt]
      · simp [Nat.div_eq_of_lt hlt]

/-! ## Claim C4: two frame-sized writes for two frames worth of bytes -/

/-- C4: on a freshly opened sink with a device that does not fail its writes,
`Play(a)` then `Play(b)` with `len(a) + len(b) = 9600` bytes (exactly two
device frames of `2400` samples, 2 bytes each) performs exactly two
`stream.Write` calls, each writing a full frame of 2400 samples, however the
bytes are split between the two calls; both calls return nil, the remainder
after the first call is `len(a) mod 4800` bytes, and nothing remains buffered
after the second. -/
theorem c4_two_frame_writes (a b : List Nat) (o : List WriteRes)
    (hnf : NoFail o) (hlen : a.length + b.length = 9600) :
    (newPlayback.play a o).2.err = none ∧
    ((newPlayback.play a o).1.play b
        (newPlayback.play a o).2.oracle).2.err = none ∧
    (newPlayback.play a o).2.calls.length +
      ((newPlayback.play a o).1.play b
        (newPlayback.play a o).2.oracle).2.calls.length = 2 ∧
    (∀ c ∈ (newPlayback.play a o).2.calls ++
        ((newPlayback.play a o).1.play b
          (newPlayback.play a o).2.oracle).2.calls,
      c.frame.length = 2400) ∧
    (newPlayback.play a o).1.pending.length = a.length % 4800 ∧
    ((newPlayback.play a o).1.play b
        (newPlayback.play a o).2.oracle).1.pending = [] := by
  have hpos : (0 : Nat) < 2400 := by norm_num
  simp only [Playback.play, newPlayback, PlaybackSampleRate]
  norm_num
  obtain ⟨e1, p1, c1, nf1, fr1⟩ :=
    playLoop_noFail 2400 hpos a.length a (le_refl _) o hnf
  obtain ⟨e2, p2, c2, nf2, fr2⟩ :=
    playLoop_noFail 2400 hpos ((playLoop 2400 false a o).pending ++ b).length
      ((playLoop 2400 false a o).pending ++ b) (le_refl _)
      (playLoop 2400 false a o).oracle nf1
  have hp2len : ((playLoop 2400 false a o).pending ++ b).length =
      a.length % 4800 + b.length := by
    rw [List.length_append, p1]
  refine ⟨e1, e2, ?_, ?_, ?_, ?_⟩
  · rw [c1, c2, hp2len]
    omega
  · intro c hc
    rcases hc with hc | hc
    · exact fr1 c hc
    · exact fr2 c hc
  · rw [p1]
  · rw [← List.length_eq_zero, p2, hp2len]
    omega

/-- C4, witness: the theorem applied at a concrete split 5000 + 4600. -/
theorem c4_witness :
    NoFail [] ∧ (List.replicate 5000 7).length +
      (List.replicate 4600 9).length = 9600 ∧
    (newPlayback.play (List.replicate 5000 7) []).2.calls.length +
      ((newPlayback.play (List.replicate 5000 7) []).1.play
        (List.replicate 4600 9)
        (newPlayback.play (List.replicate 5000 7) []).2.oracle).2.calls.length
      = 2 :=
  ⟨by intro r hr; exact absurd hr (List.not_mem_nil r),
   by simp only [List.length_replicate],
   ((c4_two_frame_writes (List.replicate 5000 7) (List.replicate 4600 9) []
      (by intro r hr; exact absurd hr (List.not_mem_nil r))
      (by simp only [List.length_replicate])).2.2).1⟩

/-! ## Claim C9: the pending-buffer invariant -/

theorem flush_small (p : Playback) (o : List WriteRes) (hnf : NoFail o)
    (hcl : p.streamClosed = false)
    (hlen : p.pending.length < p.frameSize * 2) :
    ∃ r : Playback × PlayResult, p.flush o = some r ∧
      r.1.pending = [] ∧ r.1.frameSize = p.frameSize ∧
      r.1.streamClosed = false ∧ NoFail r.2.oracle := by
  by_cases h2 : p.pending.length < 2
  · refine ⟨({ p with pending := [] },
      { pending := [], oracle := o, calls := [], err := none }), ?_, rfl, rfl,
      hcl, hnf⟩
    unfold Playback.flush
    rw [if_pos h2]
  · have hsam : ¬ (p.frameSize < p.pending.length / 2) := by omega
    refine ⟨({ p with pending := [] },
      { pending := [],
        oracle := (streamWrite p.streamClosed o).2,
        calls := [⟨decodePCM (p.pending.take (p.pending.length / 2 * 2)) ++
          List.replicate (p.frameSize - p.pending.length / 2) 0,
          (streamWrite p.streamClosed o).1⟩],
        err := match (streamWrite p.streamClosed o).1 with
          | WriteRes.failMsg => some "writing playback stream"
          | _ => none }), ?_, rfl, rfl, hcl, ?_⟩
    · unfold Playback.flush
      rw [if_neg h2, if_neg hsam]
    · rw [hcl]
      exact (noFail_streamWrite hnf).2

theorem runSink_invariant :
    ∀ (ops : List SinkOp) (p : Playback) (o : List WriteRes),
      p.frameSize = 2400 → p.streamClosed = false → NoFail o →
      p.pending.length < 4800 →
      (runSink p o ops).panicked = false ∧
      (runSink p o ops).state.pending.length < 4800 := by
  intro ops
  induction ops with
  | nil =>
    intro p o _ _ _ h4
    exact ⟨rfl, h4⟩
  | cons op rest ih =>
    intro p o hfs hcl hnf hlen
    cases op with
    | playOp d =>
      have hplay : p.play d o =
          ({ p with pending :=
              (playLoop 2400 false (p.pending ++ d) o).pending },
            playLoop 2400 false (p.pending ++ d) o) := by
        unfold Playback.play
        rw [hfs, hcl]
      obtain ⟨e1, p1, c1, nf1, fr1⟩ :=
        playLoop_noFail 2400 (by norm_num) (p.pending ++ d).length
          (p.pending ++ d) (le_refl _) o hnf
      simp only [runSink]
      rw [hplay]
      exact ih _ _ hfs hcl nf1 (by rw [p1]; omega)
    | flushOp =>
      obtain ⟨r, hfl, hp, hf, hc, hno⟩ :=
        flush_small p o hnf hcl (by omega)
      simp only [runSink]
      rw [hfl]
      exact ih r.1 r.2.oracle (by rw [hf, hfs]) hc hno (by rw [hp]; simp)

/-- C9, counterexample to the claim as stated.  On a fresh sink whose device
answers the first write with a non-underflow error, `Play` of three frames
worth of zero bytes (14400 bytes) aborts after consuming one frame and
returns with 9600 pending bytes, which is not smaller than one device frame
(4800 bytes); a following `Flush` then computes 4800 samples for a 2400-entry
frame buffer and indexes it out of range (a Go panic, `panicked` here). -/
theorem flush_panics (p : Playback) (o : List WriteRes)
    (hfs : 0 < p.frameSize) (h : p.frameSize * 2 + 2 ≤ p.pending.length) :
    p.flush o = none := by
  unfold Playback.flush
  rw [if_neg (by omega), if_pos (by omega)]

theorem play_eq (p : Playback) (d : List Nat) (o : List WriteRes) :
    p.play d o =
      ({ p with pending :=
          (playLoop p.frameSize p.streamClosed (p.pending ++ d) o).pending },
        playLoop p.frameSize p.streamClosed (p.pending ++ d) o) := rfl

theorem runSink_nil (p : Playback) (o : List WriteRes) :
    runSink p o [] = ⟨p, o, false⟩ := rfl

theorem runSink_play (p : Playback) (o : List WriteRes) (d : List Nat)
    (ops : List SinkOp) :
    runSink p o (SinkOp.playOp d :: ops) =
      runSink (p.play d o).1 (p.play d o).2.oracle ops := rfl

theorem runSink_flush (p : Playback) (o : List WriteRes) (ops : List SinkOp) :
    runSink p o (SinkOp.flushOp :: ops) =
      (match p.flush o with
       | none => ⟨p, o, true⟩
       | some r => runSink r.1 r.2.oracle ops) := rfl

/-- A first-write device failure makes the Play loop return after one
consumed frame, with the rest of the bytes still pending. -/
theorem playLoop_failFirst (fs : Nat) (pending : List Nat)
    (o' : List WriteRes) (hg : 0 < fs ∧ fs * 2 ≤ pending.length) :
    playLoop fs false pending (WriteRes.failMsg :: o') =
      { pending := pending.drop (fs * 2), oracle := o',
        calls := [⟨decodePCM (pending.take (fs * 2)), WriteRes.failMsg⟩],
        err := some "writing playback stream" } := by
  rw [playLoop, dif_pos hg]
  rfl

/-- C9, counterexample to the claim as stated.  On a fresh sink whose device
answers the first write with a non-underflow error, `Play` of three frames
worth of zero bytes (14400 bytes) aborts after consuming one frame and
returns with 9600 pending bytes, which is not smaller than one device frame
(4800 bytes); a following `Flush` then computes 4800 samples for a 2400-entry
frame buffer and indexes it out of range (a Go panic, `panicked` here). -/
theorem c9_pending_invariant_counterexample :
    (runSink newPlayback [WriteRes.failMsg]
        [SinkOp.playOp (List.replicate 14400 0)]).state.pending.length = 9600 ∧
    (runSink newPlayback [WriteRes.failMsg]
        [SinkOp.playOp (List.replicate 14400 0),
         SinkOp.flushOp]).panicked = true := by
  have hfs : newPlayback.frameSize = 2400 := by
    norm_num [newPlayback, PlaybackSampleRate]
  have hE := playLoop_failFirst 2400 (List.replicate 14400 0) []
    ⟨by norm_num, by simp only [List.length_replicate]; norm_num⟩
  have hDlen : ((List.replicate 14400 (0 : Nat)).drop (2400 * 2)).length
      = 9600 := by
    simp only [List.length_drop, List.length_replicate]
  constructor
  · rw [runSink_play, play_eq]
    rw [hfs, show newPlayback.streamClosed = false from rfl,
      show newPlayback.pending = ([] : List Nat) from rfl,
      List.nil_append, hE, runSink_nil]
    generalize hD : (List.replicate 14400 (0 : Nat)).drop (2400 * 2) = D
    rw [hD] at hDlen
    exact hDlen
  · rw [runSink_play, play_eq]
    rw [hfs, show newPlayback.streamClosed = false from rfl,
      show newPlayback.pending = ([] : List Nat) from rfl,
      List.nil_append, hE, runSink_flush]
    generalize hD : (List.replicate 14400 (0 : Nat)).drop (2400 * 2) = D
    generalize (List.replicate 14400 (0 : Nat)).take (2400 * 2) = T
    rw [hD] at hDlen
    rw [show ({ pending := D,
                oracle := ([] : List WriteRes),
                calls := [⟨decodePCM T, WriteRes.failMsg⟩],
                err := some "writing playback stream" } :
        PlayResult).pending = D from rfl]
    rw [show ({ pending := D,
                oracle := ([] : List WriteRes),
                calls := [⟨decodePCM T, WriteRes.failMsg⟩],
                err := some "writing playback stream" } :
        PlayResult).oracle = ([] : List WriteRes) from rfl]
    rw [show ((({ frameSize := 2400, pending := D, streamClosed := false } :
          Playback),
        ({ pending := D,
           oracle := ([] : List WriteRes),
           calls := [⟨decodePCM T, WriteRes.failMsg⟩],
           err := some "writing playback stream" } : PlayResult)) :
        Playback × PlayResult).1 =
        ({ frameSize := 2400, pending := D, streamClosed := false } :
          Playback) from rfl]
    have hpanic : ({ frameSize := 2400, pending := D, streamClosed := false } :
        Playback).flush ([] : List WriteRes) = none := by
      refine flush_panics _ _ ?_ ?_
      · norm_num
      · show 2400 * 2 + 2 ≤ D.length
        rw [hDlen]
        norm_num
    rw [hpanic]

/-- C9, amended: for every sequence of Play and Flush calls on a freshly
opened sink whose device never fails a write with a non-underflow error,
after each call that returns the pending buffer holds strictly fewer bytes
than one device frame (4800 bytes), and no Flush ever indexes the frame
buffer out of range.  (Quantifying over every call sequence covers every
prefix, hence the state after each call.)  When a Play write does fail, the
invariant can break and a following Flush panics, as the counterexample
shows. -/
theorem c9_pending_invariant_amended (ops : List SinkOp) (o : List WriteRes)
    (hnf : NoFail o) :
    (runSink newPlayback o ops).panicked = false ∧
    (runSink newPlayback o ops).state.pending.length < 4800 := by
  refine runSink_invariant ops newPlayback o ?_ rfl hnf (by simp [newPlayback])
  simp [newPlayback, PlaybackSampleRate]

/-- C9, witness: the amended theorem applied at a concrete call sequence. -/
theorem c9_witness :
    NoFail [] ∧
    (runSink newPlayback []
        [SinkOp.playOp (List.replicate 5000 7), SinkOp.flushOp]).panicked
      = false :=
  ⟨by intro r hr; exact absurd hr (List.not_mem_nil r),
   (c9_pending_invariant_amended
      [SinkOp.playOp (List.replicate 5000 7), SinkOp.flushOp] []
      (by intro r hr; exact absurd hr (List.not_mem_nil r))).1⟩

/-! ## Claims C5 and C10: the session read loop -/

theorem readLoop_terminalOnlyAtEnd (evs : List ServerEvent) :
    terminalOnlyAtEnd (readLoop evs) = true := by
  induction evs with
  | nil => rfl
  | cons e es ih =>
    cases e with
    | cancelled => rfl
    | readClosedNormal => rfl
    | readFailed => rfl
    | malformed => rfl
    | audioMsg isFinal audio =>
      cases isFinal with
      | true => rfl
      | false =>
        cases audio with
        | emptyField => simpa [readLoop] using ih
        | badField => rfl
        | okField d =>
          by_cases hd : d.length > 0
          · simp only [readLoop, if_pos hd]
            cases hrl : readLoop es with
            | nil => rfl
            | cons c cs =>
              rw [hrl] at ih
              simp only [terminalOnlyAtEnd, isTerminal, Bool.not_false,
                Bool.true_and]
              exact ih
          · simp only [readLoop, if_neg hd]
            exact ih

theorem readLoop_terminal_count (evs : List ServerEvent) :
    (readLoop evs).countP isTerminal ≤ 1 := by
  induction evs with
  | nil => simp [readLoop]
  | cons e es ih =>
    cases e with
    | cancelled => simp [readLoop]
    | readClosedNormal => simp [readLoop]
    | readFailed => simp [readLoop, List.countP_cons, isTerminal]
    | malformed => simp [readLoop, List.countP_cons, isTerminal]
    | audioMsg isFinal audio =>
      cases isFinal with
      | true => simp [readLoop, List.countP_cons, isTerminal]
      | false =>
        cases audio with
        | emptyField => simpa [readLoop] using ih
        | badField => simp [readLoop, List.countP_cons, isTerminal]
        | okField d =>
          by_cases hd : d.length > 0
          · simp only [readLoop, if_pos hd, List.countP_cons]
            simpa [isTerminal] using ih
          · simp only [readLoop, if_neg hd]
            exact ih

/-- C5: for every run of the session read loop, the emitted chunk sequence
contains at most one terminal chunk (Done or Error) and every chunk before
the final one is a Data chunk; a failed connection read, an unmarshal
failure, or a base64 decode failure each produce exactly one Error chunk and
end the sequence immediately.  Cancellation and a normal close end the
sequence without a chunk, so a terminal need not exist, but nothing ever
follows one. -/
theorem c5_terminal_chunk_last (evs : List ServerEvent) :
    terminalOnlyAtEnd (readLoop evs) = true ∧
    (readLoop evs).countP isTerminal ≤ 1 ∧
    (∀ es : List ServerEvent,
      readLoop (ServerEvent.readFailed :: es) =
        [AudioChunk.errChunk "ws read"] ∧
      readLoop (ServerEvent.malformed :: es) =
        [AudioChunk.errChunk "ws unmarshal"] ∧
      readLoop (ServerEvent.audioMsg false B64Field.badField :: es) =
        [AudioChunk.errChunk "ws base64 decode"]) :=
  ⟨readLoop_terminalOnlyAtEnd evs, readLoop_terminal_count evs,
   fun _ => ⟨rfl, rfl, rfl⟩⟩

/-- C10: every Data chunk the read loop delivers carries a non-empty
payload; messages whose decoded audio payload is empty (or whose audio field
is the empty string) are skipped, never delivered as empty Data chunks. -/
theorem c10_data_chunks_nonempty (evs : List ServerEvent) :
    (readLoop evs).all chunkDataNonempty = true := by
  induction evs with
  | nil => rfl
  | cons e es ih =>
    cases e with
    | cancelled => rfl
    | readClosedNormal => rfl
    | readFailed => rfl
    | malformed => rfl
    | audioMsg isFinal audio =>
      cases isFinal with
      | true => rfl
      | false =>
        cases audio with
        | emptyField => simpa [readLoop] using ih
        | badField => rfl
        | okField d =>
          by_cases hd : d.length > 0
          · simp only [readLoop, if_pos hd, List.all_cons]
            have hne : chunkDataNonempty (AudioChunk.dataChunk d) = true := by
              cases d with
              | nil => simp at hd
              | cons b bs => rfl
            rw [hne, ih]
            rfl
          · simp only [readLoop, if_neg hd]
            exact ih

/-! ## Claim C7: Close and Flush on already-closed session or sink -/

/-- C7, counterexample to the claim as stated: Flush on an already-closed
synthesis session writes the empty-text sentinel on a closed websocket
connection, which returns a write error, so the call does not return without
error. -/
theorem c7_flush_after_close_counterexample :
    ((initSession.close).1.flush).err ≠ none := by
  decide

/-- C7, amended: Close on an already-closed session or sink remains a no-op
returning nil without further output.  Flush on an already-closed session or
sink emits no further output (no message is sent, no audio reaches the
device) and does not panic, but may return an error from writing on the
closed connection or stream: the session flush always errors, and the sink
flush errors exactly when at least one full sample (2 bytes) is pending.
The sink bound `pending ≤ 4800` is the reachable-state bound of C9. -/
theorem c7_close_flush_idempotent_amended (pending : List Nat)
    (o : List WriteRes) (hlen : pending.length ≤ 4800) :
    (initSession.close).1.close = ((initSession.close).1, none) ∧
    ((initSession.close).1.flush).sent = [] ∧
    ((initSession.close).1.flush).err =
      some "use of closed network connection" ∧
    (({ newPlayback with pending := pending }).close).1.close =
      ((({ newPlayback with pending := pending }).close).1, none) ∧
    (∃ r : Playback × PlayResult,
      (({ newPlayback with pending := pending }).close).1.flush o = some r ∧
      r.1.pending = [] ∧ emittedCalls r.2.calls = [] ∧
      r.2.err = (if 2 ≤ pending.length then some "writing playback stream"
        else none)) := by
  refine ⟨rfl, rfl, rfl, rfl, ?_⟩
  have hpc : (({ newPlayback with pending := pending }).close).1 =
      ({ frameSize := 2400, pending := pending, streamClosed := true } :
        Playback) := by
    simp [Playback.close, newPlayback, PlaybackSampleRate]
  rw [hpc]
  by_cases h2 : pending.length < 2
  · refine ⟨({ frameSize := 2400, pending := [], streamClosed := true },
      { pending := [], oracle := o, calls := [], err := none }), ?_, rfl, rfl,
      ?_⟩
    · unfold Playback.flush
      rw [if_pos h2]
    · rw [if_neg (by omega)]
  · have hsam : ¬ ((2400 : Nat) < pending.length / 2) := by omega
    refine ⟨({ frameSize := 2400, pending := [], streamClosed := true },
      { pending := [], oracle := o,
        calls := [⟨decodePCM (pending.take (pending.length / 2 * 2)) ++
          List.replicate (2400 - pending.length / 2) 0, WriteRes.failMsg⟩],
        err := some "writing playback stream" }), ?_, rfl, rfl, ?_⟩
    · unfold Playback.flush
      rw [if_neg h2]
      rw [if_neg hsam]
      rfl
    · rw [if_pos (by omega)]

/-- C7, witness: the amended theorem applied at a concrete pending buffer. -/
theorem c7_witness :
    ([(1 : Nat), 2, 3]).length ≤ 4800 ∧
    ((initSession.close).1.flush).err =
      some "use of closed network connection" :=
  ⟨by decide,
   ((c7_close_flush_idempotent_amended [1, 2, 3] [] (by decide)).2.2).1⟩

/-! ## Claim C8: missing web search credential -/

/-- C8: with an empty API key the web search tool answers the fixed
unavailable text with a nil Go error and performs no network request,
whatever the parameters and whatever the network would have answered. -/
theorem c8_missing_key_degrades (query : Option String) (http : HttpOutcome) :
    webSearchRun "" query http =
      (newTextErrorResponse "Web search unavailable (SERPAPI_KEY not set)",
        none, 0) := by
  unfold webSearchRun
  rw [if_pos rfl]

/-! ## Claim C6: empty transcript skips the turn -/

/-- C6: a turn whose recognized transcript trims to the empty string leaves
the conversation history exactly unchanged and opens no synthesis session,
whatever the generation stream would have produced. -/
theorem c6_empty_transcript_no_effect (history : List ChatMsg)
    (transcript : List Char) (events : List LLMEvent)
    (h : goTrimSpace transcript = []) :
    runTurn history transcript events = ⟨history, 0⟩ := by
  unfold runTurn
  rw [h]
  simp

/-- C6, witness: the theorem applied at a whitespace-only transcript. -/
theorem c6_witness :
    goTrimSpace [' ', '\t', '\n'] = [] ∧
    runTurn [ChatMsg.systemMsg ['a']] [' ', '\t', '\n']
        [LLMEvent.contentDelta ['h', 'i']] =
      ⟨[ChatMsg.systemMsg ['a']], 0⟩ :=
  ⟨by decide,
   c6_empty_transcript_no_effect [ChatMsg.systemMsg ['a']] [' ', '\t', '\n']
     [LLMEvent.contentDelta ['h', 'i']] (by decide)⟩

/-! ## Claim C3: the WAV header -/

theorem readU32_skip (a l : Bytes) (off : Nat) :
    readU32 (a ++ l) (a.length + off) = readU32 l off := by
  unfold readU32
  rw [List.getD_append_right _ _ _ _ (by omega),
      List.getD_append_right _ _ _ _ (by omega),
      List.getD_append_right _ _ _ _ (by omega),
      List.getD_append_right _ _ _ _ (by omega)]
  have h0 : a.length + off - a.length = off := by omega
  have h1 : a.length + off + 1 - a.length = off + 1 := by omega
  have h2 : a.length + off + 2 - a.length = off + 2 := by omega
  have h3 : a.length + off + 3 - a.length = off + 3 := by omega
  rw [h0, h1, h2, h3]

theorem readU16_skip (a l : Bytes) (off : Nat) :
    readU16 (a ++ l) (a.length + off) = readU16 l off := by
  unfold readU16
  rw [List.getD_append_right _ _ _ _ (by omega),
      List.getD_append_right _ _ _ _ (by omega)]
  have h0 : a.length + off - a.length = off := by omega
  have h1 : a.length + off + 1 - a.length = off + 1 := by omega
  rw [h0, h1]

theorem readU32_here (v : Nat) (hv : v < 4294967296) (suf : Bytes) :
    readU32 (putU32 v ++ suf) 0 = v := by
  have hw : v % 4294967296 = v := Nat.mod_eq_of_lt hv
  unfold readU32
  rw [List.getD_append _ _ _ _ (by simp [putU32]),
      List.getD_append _ _ _ _ (by simp [putU32]),
      List.getD_append _ _ _ _ (by simp [putU32]),
      List.getD_append _ _ _ _ (by simp [putU32])]
  simp [putU32, hw, List.getD_cons_zero, List.getD_cons_succ]
  omega

theorem readU16_here (v : Nat) (hv : v < 65536) (suf : Bytes) :
    readU16 (putU16 v ++ suf) 0 = v := by
  have hw : v % 65536 = v := Nat.mod_eq_of_lt hv
  unfold readU16
  rw [List.getD_append _ _ _ _ (by simp [putU16]),
      List.getD_append _ _ _ _ (by simp [putU16])]
  simp [putU16, hw, List.getD_cons_zero, List.getD_cons_succ]
  omega

/-- C3, counterexample to the claim as stated: `EncodeWAV` truncates the
sample rate to 32 bits (Go `uint32(sampleRate)`), so for the sample rate
`2^32 = 4294967296` the header field decodes to `0`, not to the given
value; the claim holds only for in-range field values. -/
theorem c3_overflow_counterexample :
    readU32 (encodeWAV [] 4294967296 1 16) 24 = 0 ∧
    (0 : Nat) ≠ 4294967296 := by
  decide

/-- C3, amended: for every pcm byte list and in-range parameters
(sampleRate, byteRate and fileSize below `2^32`; channels, bitsPerSample and
blockAlign below `2^16`), `EncodeWAV` returns a 44-byte header followed by
the pcm bytes unchanged, starting with the RIFF magic, and the little-endian
fields decode to exactly `fileSize = 36 + len(pcm)`, `channels`,
`sampleRate`, `byteRate = sampleRate*channels*bitsPerSample/8`,
`blockAlign = channels*bitsPerSample/8`, `bitsPerSample` and
`dataSize = len(pcm)`. -/
theorem c3_encodeWAV_header_correct (pcm : Bytes) (sr ch bits : Nat)
    (hsr : sr < 4294967296) (hch : ch < 65536) (hbits : bits < 65536)
    (hbr : sr * ch * bits / 8 < 4294967296)
    (hba : ch * bits / 8 < 65536)
    (hfz : 36 + pcm.length < 4294967296)
    (hdz : pcm.length < 4294967296) :
    (encodeWAV pcm sr ch bits).length = 44 + pcm.length ∧
    (encodeWAV pcm sr ch bits).drop 44 = pcm ∧
    (encodeWAV pcm sr ch bits).take 4 = [0x52, 0x49, 0x46, 0x46] ∧
    readU32 (encodeWAV pcm sr ch bits) 4 = 36 + pcm.length ∧
    readU16 (encodeWAV pcm sr ch bits) 22 = ch ∧
    readU32 (encodeWAV pcm sr ch bits) 24 = sr ∧
    readU32 (encodeWAV pcm sr ch bits) 28 = sr * ch * bits / 8 ∧
    readU16 (encodeWAV pcm sr ch bits) 32 = ch * bits / 8 ∧
    readU16 (encodeWAV pcm sr ch bits) 34 = bits ∧
    readU32 (encodeWAV pcm sr ch bits) 40 = pcm.length := by
  refine ⟨?_, ?_, ?_, ?_, ?_, ?_, ?_, ?_, ?_, ?_⟩
  · simp [encodeWAV, putU32, putU16]
    omega
  · -- the pcm payload follows the 44 header bytes unchanged
    simp only [encodeWAV, List.append_assoc]
    show List.drop (([0x52, 0x49, 0x46, 0x46] : Bytes).length + ((putU32 (36 + pcm.length)).length + (([0x57, 0x41, 0x56, 0x45] : Bytes).length + (([0x66, 0x6d, 0x74, 0x20] : Bytes).length + ((putU32 16).length + ((putU16 1).length + ((putU16 ch).length + ((putU32 sr).length + ((putU32 (sr * ch * bits / 8)).length + ((putU16 (ch * bits / 8)).length + ((putU16 bits).length + (([0x64, 0x61, 0x74, 0x61] : Bytes).length + ((putU32 pcm.length).length + (0)))))))))))))) _ = pcm
    simp only [List.drop_append]
    exact List.drop_zero pcm
  · -- the RIFF magic
    simp only [encodeWAV, List.append_assoc]
    show List.take (([0x52, 0x49, 0x46, 0x46] : Bytes).length) _ = _
    exact List.take_left _ _
  · -- fileSize at offset 4
    simp only [encodeWAV, List.append_assoc]
    show readU32 _ (([0x52, 0x49, 0x46, 0x46] : Bytes).length + (0)) = 36 + pcm.length
    simp only [readU32_skip]
    exact readU32_here _ hfz _
  · -- channels at offset 22
    simp only [encodeWAV, List.append_assoc]
    show readU16 _ (([0x52, 0x49, 0x46, 0x46] : Bytes).length + ((putU32 (36 + pcm.length)).length + (([0x57, 0x41, 0x56, 0x45] : Bytes).length + (([0x66, 0x6d, 0x74, 0x20] : Bytes).length + ((putU32 16).length + ((putU16 1).length + (0))))))) = ch
    simp only [readU16_skip]
    exact readU16_here _ hch _
  · -- sampleRate at offset 24
    simp only [encodeWAV, List.append_assoc]
    show readU32 _ (([0x52, 0x49, 0x46, 0x46] : Bytes).length + ((putU32 (36 + pcm.length)).length + (([0x57, 0x41, 0x56, 0x45] : Bytes).length + (([0x66, 0x6d, 0x74, 0x20] : Bytes).length + ((putU32 16).length + ((putU16 1).length + ((putU16 ch).length + (0)))))))) = sr
    simp only [readU32_skip]
    exact readU32_here _ hsr _
  · -- byteRate at offset 28
    simp only [encodeWAV, List.append_assoc]
    show readU32 _ (([0x52, 0x49, 0x46, 0x46] : Bytes).length + ((putU32 (36 + pcm.length)).length + (([0x57, 0x41, 0x56, 0x45] : Bytes).length + (([0x66, 0x6d, 0x74, 0x20] : Bytes).length + ((putU32 16).length + ((putU16 1).length + ((putU16 ch).length + ((putU32 sr).length + (0))))))))) = sr * ch * bits / 8
    simp only [readU32_skip]
    exact readU32_here _ hbr _
  · -- blockAlign at offset 32
    simp only [encodeWAV, List.append_assoc]
    show readU16 _ (([0x52, 0x49, 0x46, 0x46] : Bytes).length + ((putU32 (36 + pcm.length)).length + (([0x57, 0x41, 0x56, 0x45] : Bytes).length + (([0x66, 0x6d, 0x74, 0x20] : Bytes).length + ((putU32 16).length + ((putU16 1).length + ((putU16 ch).length + ((putU32 sr).length + ((putU32 (sr * ch * bits / 8)).length + (0)))))))))) = ch * bits / 8
    simp only [readU16_skip]
    exact readU16_here _ hba _
  · -- bitsPerSample at offset 34
    simp only [encodeWAV, List.append_assoc]
    show readU16 _ (([0x52, 0x49, 0x46, 0x46] : Bytes).length + ((putU32 (36 + pcm.length)).length + (([0x57, 0x41, 0x56, 0x45] : Bytes).length + (([0x66, 0x6d, 0x74, 0x20] : Bytes).length + ((putU32 16).length + ((putU16 1).length + ((putU16 ch).length + ((putU32 sr).length + ((putU32 (sr * ch * bits / 8)).length + ((putU16 (ch * bits / 8)).length + (0))))))))))) = bits
    simp only [readU16_skip]
    exact readU16_here _ hbits _
  · -- dataSize at offset 40
    simp only [encodeWAV, List.append_assoc]
    show readU32 _ (([0x52, 0x49, 0x46, 0x46] : Bytes).length + ((putU32 (36 + pcm.length)).length + (([0x57, 0x41, 0x56, 0x45] : Bytes).length + (([0x66, 0x6d, 0x74, 0x20] : Bytes).length + ((putU32 16).length + ((putU16 1).length + ((putU16 ch).length + ((putU32 sr).length + ((putU32 (sr * ch * bits / 8)).length + ((putU16 (ch * bits / 8)).length + ((putU16 bits).length + (([0x64, 0x61, 0x74, 0x61] : Bytes).length + (0))))))))))))) = pcm.length
    simp only [readU32_skip]
    exact readU32_here _ hdz _

/-- C3, witness: the amended theorem applied at concrete in-range values. -/
theorem c3_witness :
    (16000 : Nat) < 4294967296 ∧
    readU32 (encodeWAV [7, 8] 16000 1 16) 24 = 16000 :=
  ⟨by decide,
   (((((c3_encodeWAV_header_correct [7, 8] 16000 1 16 (by decide) (by decide)
      (by decide) (by decide) (by decide) (by decide)
      (by decide)).2).2).2).2).2.1⟩

end SmartHome
